import Mathlib

/-!
Shallow embedding of the map-editor core of this repository
(`src/artifacts/utils/mapUtils.ts`, `src/artifacts/utils/terrainGeneration.ts`,
`src/artifacts/MapEditor.tsx`, `src/artifacts/index.tsx`) together with the
theorems settling the frozen claims about it.

Conventions of the embedding:
* JavaScript numbers that only ever hold integers (cell heights, brush sizes,
  grid coordinates, map dimensions) are modelled as `Int`/`Nat`; fractional
  JavaScript numbers (noise values, elevations, averages) are modelled as `ℚ`,
  exact wherever the double-precision computation is exact on the inputs the
  claims are about.
* `Math.sqrt(a) > b` on nonnegative integers is rendered as the exact
  equivalent integer comparison `b*b < a` (monotonicity of the square root).
* A JavaScript expression that would throw (indexing a missing array element)
  or produce `NaN` (`0/0`) is modelled with `Option`: `none` stands for the
  exception / `NaN`.
* `JSON.parse(JSON.stringify(x))` deep copies and `[...xs]` shallow copies are
  identities in the value semantics of the embedding.
-/

namespace MapEd

/-- A map cell, from `types.ts`: `interface Cell { type: string; height: number }`. -/
structure Cell where
  type : String
  height : Int
deriving DecidableEq

/-- Map dimensions, from `types.ts`: `interface MapSize { width; height }`. -/
structure MapSize where
  width : Nat
  height : Nat
deriving DecidableEq

/-- A rectangular grid `Cell[][]`, row major, as in the source. -/
abbrev Grid := List (List Cell)

/-- `modifyAt f l n` replaces the `n`-th element `a` of `l` by `f a`
(identity when the index is absent).  Used to model the in-place element
updates `arr[i] = …` of the source. -/
def modifyAt (f : α → α) : List α → Nat → List α
  | [], _ => []
  | a :: t, 0 => f a :: t
  | a :: t, n + 1 => a :: modifyAt f t n

/-- `mapData[i][j]` as an optional lookup: `none` when the JavaScript access
would be `undefined`. -/
def getCell (g : Grid) (i j : Nat) : Option Cell :=
  g[i]?.bind (fun r => r[j]?)

/-- Point update of a grid, used to model `newMapData[i][j].field = v`. -/
def modifyGrid (g : Grid) (i j : Nat) (f : Cell → Cell) : Grid :=
  modifyAt (fun r => modifyAt f r j) g i

/-- The list of integers `lo, lo+1, …, hi` (empty when `hi < lo`), modelling a
JavaScript `for (let k = lo; k <= hi; k++)` loop. -/
def intRange (lo hi : Int) : List Int :=
  (List.range (hi + 1 - lo).toNat).map (fun n : Nat => lo + (n : Int))

/-- The brush-offset pairs `(r, c)` visited by the nested loops
`for (let r = -radius; r <= radius; r++) for (let c = -radius; c <= radius; c++)`
of `updateCells` (`mapUtils.ts`). -/
def brushOffsets (radius : Int) : List (Int × Int) :=
  (intRange (-radius) radius).bind (fun r => (intRange (-radius) radius).map (fun c => (r, c)))

/-- The per-cell effect of the brush (`mapUtils.ts`, lines 46–52): the
`height` tool writes the selected height, any other tool string is a terrain
id and is written to `type`. -/
def paintCell (selectedTool : String) (selectedHeight : Int) (c : Cell) : Cell :=
  if selectedTool = "height" then { c with height := selectedHeight }
  else { c with type := selectedTool }

/-- A write `newMapData[i][j] = …` that throws (`none`) when the indexed cell
does not exist, exactly as the JavaScript member access would. -/
def checkedWrite (g : Grid) (i j : Nat) (f : Cell → Cell) : Option Grid :=
  match getCell g i j with
  | none => none
  | some _ => some (modifyGrid g i j f)

/-- Out-of-map test of `updateCells` (`mapUtils.ts`, line 36):
`targetRow < 0 || targetRow >= mapSize.height || targetCol < 0 || targetCol >= mapSize.width`. -/
def outOfBounds (tr tc : Int) (ms : MapSize) : Prop :=
  tr < 0 ∨ (ms.height : Int) ≤ tr ∨ tc < 0 ∨ (ms.width : Int) ≤ tc

instance (tr tc : Int) (ms : MapSize) : Decidable (outOfBounds tr tc ms) := by
  unfold outOfBounds; infer_instance

/-- One iteration of the brush loops of `updateCells` (`mapUtils.ts`,
lines 29–53) at offset `p = (r, c)`: skip the offset when the target cell is
outside the map; for `brushSize > 1` skip it when
`Math.sqrt(r*r + c*c) > radius` (rendered exactly as
`radius*radius < r*r + c*c`); otherwise paint the target cell. -/
def brushStep (row col : Int) (ms : MapSize) (tool : String) (h : Int)
    (brushSize : Nat) (g : Grid) (p : Int × Int) : Option Grid :=
  let radius : Int := (brushSize / 2 : Nat)
  let tr := row + p.1
  let tc := col + p.2
  if outOfBounds tr tc ms then some g
  else if 1 < brushSize ∧ radius * radius < p.1 * p.1 + p.2 * p.2 then some g
  else checkedWrite g tr.toNat tc.toNat (paintCell tool h)

/-- `updateCells` from `mapUtils.ts` (lines 14–57): deep copy of the input
(the identity here), then the nested brush loops; the brush radius is
`Math.floor(brushSize / 2)`.  The result is `none` exactly when one of the
cell writes would have thrown. -/
def updateCells (mapData : Grid) (row col : Int) (ms : MapSize)
    (tool : String) (h : Int) (brushSize : Nat) : Option Grid :=
  (brushOffsets ((brushSize / 2 : Nat) : Int)).foldl
    (fun og p => og.bind (fun g => brushStep row col ms tool h brushSize g p))
    (some mapData)

/-- The grid has exactly the dimensions recorded in `mapSize` — the invariant
the editor maintains between `mapData` and `mapSize`. -/
def dimsEq (g : Grid) (ms : MapSize) : Prop :=
  g.length = ms.height ∧ ∀ r ∈ g, r.length = ms.width

instance (g : Grid) (ms : MapSize) : Decidable (dimsEq g ms) := by
  unfold dimsEq; infer_instance

/-- The 5×5 all-`field`, height-1 grid of the concrete brush scenario
(§8 of the spec): `createEmptyMap({width: 5, height: 5})`. -/
def grid5 : Grid := List.replicate 5 (List.replicate 5 ⟨"field", 1⟩)

/-- What `updateCells(grid5, 2, 2, {5,5}, 'water', 0, 3)` actually produces:
the center and its 4 orthogonal neighbours become `water`; heights are left
at 1 (terrain painting never writes `height`); the 4 diagonal neighbours at
Euclidean distance √2 > 1 are skipped by the circular-brush test. -/
def cross5 : Grid :=
  [[⟨"field", 1⟩, ⟨"field", 1⟩, ⟨"field", 1⟩, ⟨"field", 1⟩, ⟨"field", 1⟩],
   [⟨"field", 1⟩, ⟨"field", 1⟩, ⟨"water", 1⟩, ⟨"field", 1⟩, ⟨"field", 1⟩],
   [⟨"field", 1⟩, ⟨"water", 1⟩, ⟨"water", 1⟩, ⟨"water", 1⟩, ⟨"field", 1⟩],
   [⟨"field", 1⟩, ⟨"field", 1⟩, ⟨"water", 1⟩, ⟨"field", 1⟩, ⟨"field", 1⟩],
   [⟨"field", 1⟩, ⟨"field", 1⟩, ⟨"field", 1⟩, ⟨"field", 1⟩, ⟨"field", 1⟩]]

/-- A 3×3 all-`field`, height-1 grid (witness input). -/
def grid3 : Grid := List.replicate 3 (List.replicate 3 ⟨"field", 1⟩)

/-- Result of a size-3 `water` brush at the center of `grid3`. -/
def plus3 : Grid :=
  [[⟨"field", 1⟩, ⟨"water", 1⟩, ⟨"field", 1⟩],
   [⟨"water", 1⟩, ⟨"water", 1⟩, ⟨"water", 1⟩],
   [⟨"field", 1⟩, ⟨"water", 1⟩, ⟨"field", 1⟩]]

/-- A 2×2 all-`field`, height-1 grid (witness input). -/
def grid2 : Grid := List.replicate 2 (List.replicate 2 ⟨"field", 1⟩)

/-! ### Undo/redo history (`MapEditor.tsx`, lines 29–30 and 72–161) -/

/-- The slice of editor state that `saveState`/`undo`/`redo` read and write:
`mapSize`, `mapData`, `undoStack`, `redoStack`. -/
structure EditorState where
  mapSize : MapSize
  mapData : Grid
  undoStack : List Grid
  redoStack : List Grid

/-- The size-adaptive stack bound of `saveState` (`MapEditor.tsx`,
lines 68–85): 10 entries for grids above 40000 cells, 20 above 10000,
otherwise 50. -/
def maxUndoStates (ms : MapSize) : Nat :=
  if 40000 < ms.width * ms.height then 10
  else if 10000 < ms.width * ms.height then 20
  else 50

/-- `saveState` (`MapEditor.tsx`, lines 73–113): push the pre-edit grid onto
the undo stack (`[...undoStack, mapData]`, the copy being the identity in
value semantics), truncate the stack from the old end when it exceeds the
bound (`slice(length - max)`), clear the redo stack (`setRedoStack([])`) and
commit the new grid. -/
def saveState (st : EditorState) (newMapData : Grid) : EditorState :=
  let maxU := maxUndoStates st.mapSize
  let pushed := st.undoStack ++ [st.mapData]
  let newUndo := if maxU < pushed.length then pushed.drop (pushed.length - maxU) else pushed
  { st with mapData := newMapData, undoStack := newUndo, redoStack := [] }

/-- `undo` (`MapEditor.tsx`, lines 116–137): no-op on an empty undo stack;
otherwise pop its most recent entry to become current, pushing the current
grid onto the redo stack. -/
def undo (st : EditorState) : EditorState :=
  match st.undoStack.getLast? with
  | none => st
  | some prev =>
    { st with
      mapData := prev
      undoStack := st.undoStack.dropLast
      redoStack := st.redoStack ++ [st.mapData] }

/-- `redo` (`MapEditor.tsx`, lines 140–161): no-op on an empty redo stack;
otherwise pop its most recent entry to become current, pushing the current
grid onto the undo stack. -/
def redo (st : EditorState) : EditorState :=
  match st.redoStack.getLast? with
  | none => st
  | some nxt =>
    { st with
      mapData := nxt
      redoStack := st.redoStack.dropLast
      undoStack := st.undoStack ++ [st.mapData] }

/-! ### Hexagonal grid resize (`index.tsx`, lines 535–584) -/

/-- A hex cell of the hexagonal editor (`index.tsx`):
`{q, r, s, terrainType, color, height}` in cube coordinates. -/
structure HexData where
  q : Int
  r : Int
  s : Int
  terrainType : String
  color : String
  height : ℚ
deriving DecidableEq

/-- The key `"q,r,s"` under which `resizeMap` stores a hex in its lookup
object, modelled as the coordinate triple itself. -/
def hexKey (h : HexData) : Int × Int × Int := (h.q, h.r, h.s)

/-- The lookup object `currentHexes` built by
`hexMap.forEach(hex => { currentHexes[key] = hex })`: for a repeated key the
later write wins, exactly as in the fold below. -/
def lastWithKey (l : List HexData) (k : Int × Int × Int) : Option HexData :=
  l.foldl (fun acc h => if hexKey h = k then some h else acc) none

/-- The default hex created for new coordinates: `terrainTypes[0]` of
`index.tsx` (`field`, color `#4CAF50`, height 0). -/
def defaultHexAt (c : Int × Int × Int) : HexData :=
  ⟨c.1, c.2.1, c.2.2, "field", "#4CAF50", 0⟩

/-- The coordinate triples visited by the map-construction loops of
`initializeMap`/`resizeMap` (`index.tsx`):
`for q in [-R, R], for r in [max(-R, -q-R), min(R, -q+R)], s = -q-r`. -/
def canonicalHexCoords (R : Int) : List (Int × Int × Int) :=
  (intRange (-R) R).bind (fun q =>
    (intRange (max (-R) (-q - R)) (min R (-q + R))).map (fun r => (q, r, -q - r)))

/-- The per-coordinate choice of `resizeMap`: reuse the existing hex for a
coordinate present in the old map, otherwise create a default hex. -/
def hexAtKey (hexMap : List HexData) (c : Int × Int × Int) : HexData :=
  match lastWithKey hexMap c with
  | some h => h
  | none => defaultHexAt c

/-- `resizeMap` from `index.tsx` (lines 535–584): clamp the radius to 15,
then rebuild the map over the coordinate set of the new radius, preserving
hexes whose coordinates existed before. -/
def resizeHexMap (hexMap : List HexData) (newRadius : Int) : List HexData :=
  let safeRadius := min newRadius 15
  (canonicalHexCoords safeRadius).map (hexAtKey hexMap)

/-- The radius-1 hexagonal map (7 cells) in canonical construction order, as
`initializeMap` with radius 1 produces it (witness input). -/
def hex7 : List HexData :=
  [⟨-1, 0, 1, "field", "#4CAF50", 0⟩,
   ⟨-1, 1, 0, "field", "#4CAF50", 0⟩,
   ⟨0, -1, 1, "field", "#4CAF50", 0⟩,
   ⟨0, 0, 0, "field", "#4CAF50", 0⟩,
   ⟨0, 1, -1, "field", "#4CAF50", 0⟩,
   ⟨1, -1, 0, "field", "#4CAF50", 0⟩,
   ⟨1, 0, -1, "field", "#4CAF50", 0⟩]

/-! ### Noise generation (`terrainGeneration.ts`, lines 8–85)

`generateNoise` is parametrised here by the corner hash `rand`: in the source
it is the fixed deterministic function
`frac(sin(x*12.9898 + y*78.233 + s*43.7498) * 43758.5453)` of
`(x, y, seed+octave)` and nothing else — in particular no call to
`Math.random` and no state outside the arguments occurs anywhere in
`generateNoise`. -/

/-- `NoiseParams` from `types.ts`. -/
structure NoiseParams where
  width : Nat
  height : Nat
  scale : ℚ
  octaves : Nat
  persistence : ℚ
  lacunarity : ℚ
  seed : ℚ

/-- `lerp` from `terrainGeneration.ts`, line 18. -/
def lerp (a b t : ℚ) : ℚ := a + t * (b - a)

/-- `smooth` from `terrainGeneration.ts`, line 21 (smoothstep easing). -/
def smoothstep (t : ℚ) : ℚ := t * t * (3 - 2 * t)

/-- JavaScript division, `none` when the divisor is zero (the source then
produces `NaN`/`±Infinity` instead of a number in `[0,1]`). -/
def jsDiv (a b : ℚ) : Option ℚ := if b = 0 then none else some (a / b)

/-- The value one octave contributes at output cell `(x, y)`
(`terrainGeneration.ts`, lines 29–62): scaled coordinates, integer corner
cell, smoothstep-eased bilinear interpolation of the four corner hashes,
weighted by `persistence^octave`. -/
def noiseValueAt (rand : Int → Int → ℚ → ℚ) (p : NoiseParams) (octave x y : Nat) : ℚ :=
  let frequency := p.lacunarity ^ octave
  let amplitude := p.persistence ^ octave
  let sX := (x : ℚ) / p.scale * frequency
  let sY := (y : ℚ) / p.scale * frequency
  let cellX : Int := ⌊sX⌋
  let cellY : Int := ⌊sY⌋
  let fracX := sX - cellX
  let fracY := sY - cellY
  let smoothX := smoothstep fracX
  let smoothY := smoothstep fracY
  let c00 := rand cellX cellY (p.seed + octave)
  let c10 := rand (cellX + 1) cellY (p.seed + octave)
  let c01 := rand cellX (cellY + 1) (p.seed + octave)
  let c11 := rand (cellX + 1) (cellY + 1) (p.seed + octave)
  let top := lerp c00 c10 smoothX
  let bottom := lerp c01 c11 smoothX
  lerp top bottom smoothY * amplitude

/-- The raw accumulated noise map before normalisation
(`terrainGeneration.ts`, lines 24–65): each cell is the sum of its per-octave
contributions. -/
def rawNoiseMap (rand : Int → Int → ℚ → ℚ) (p : NoiseParams) : List (List ℚ) :=
  (List.range p.height).map (fun y =>
    (List.range p.width).map (fun x =>
      (List.range p.octaves).foldl (fun acc o => acc + noiseValueAt rand p o x y) 0))

/-- `generateNoise` from `terrainGeneration.ts` (lines 8–85): raw octave
accumulation followed by min–max normalisation `(v - min) / (max - min)` over
the whole field.  The source has no guard for `max == min`: in that case
every cell is `0/0`, i.e. `NaN`, modelled as `none`. -/
def generateNoise (rand : Int → Int → ℚ → ℚ) (p : NoiseParams) : List (List (Option ℚ)) :=
  let raw := rawNoiseMap rand p
  let vals := raw.join
  let minV := vals.foldl min (vals.headD 0)
  let maxV := vals.foldl max (vals.headD 0)
  raw.map (fun rw => rw.map (fun v => jsDiv (v - minV) (maxV - minV)))

/-! ### River carving step (`terrainGeneration.ts`, lines 255–295) -/

/-- The eight candidate directions `(dx, dy)` of the river walk
(`terrainGeneration.ts`, lines 261–270), in source order. -/
def directionsList : List (Int × Int) :=
  [(-1, 0), (1, 0), (0, -1), (0, 1), (-1, -1), (1, -1), (-1, 1), (1, 1)]

/-- `heightMap[y][x]` (in-bounds reads only; default 0 for the unreachable
out-of-bounds case). -/
def elevAt (hm : List (List ℚ)) (y x : Nat) : ℚ :=
  ((hm.get? y).bind (fun r => r.get? x)).getD 0

/-- The next-position selection of one river-walk step
(`terrainGeneration.ts`, lines 272–288): `minElevation` starts at `Infinity`
(modelled `none`) and `(nextX, nextY)` at the current position; every
in-bounds neighbour with elevation strictly below the running minimum
replaces it.  Note that the current cell's own elevation is never consulted. -/
def riverNext (hm : List (List ℚ)) (ms : MapSize) (x y : Int) : Int × Int :=
  (directionsList.foldl (fun (acc : (Int × Int) × Option ℚ) d =>
    let nx := x + d.1
    let ny := y + d.2
    if 0 ≤ nx ∧ nx < (ms.width : Int) ∧ 0 ≤ ny ∧ ny < (ms.height : Int) then
      let e := elevAt hm ny.toNat nx.toNat
      match acc.2 with
      | none => ((nx, ny), some e)
      | some m => if e < m then ((nx, ny), some e) else acc
    else acc) ((x, y), none)).1

/-- One step of the river walk with its termination test
(`terrainGeneration.ts`, lines 290–295): `none` exactly when
`nextX === x && nextY === y`, i.e. when the walk breaks. -/
def riverStep (hm : List (List ℚ)) (ms : MapSize) (x y : Int) : Option (Int × Int) :=
  let n := riverNext hm ms x y
  if n.1 = x ∧ n.2 = y then none else some n

/-! ### Height smoothing pass (`terrainGeneration.ts`, lines 354–391) -/

/-- `mapData[y][x]` for the smoothing reads; all reads are bounds-checked in
the source, so the default is unreachable on well-dimensioned grids. -/
def cellAt (g : Grid) (y x : Int) : Cell :=
  if 0 ≤ y ∧ 0 ≤ x then (getCell g y.toNat x.toNat).getD ⟨"field", 1⟩ else ⟨"field", 1⟩

/-- JavaScript `Math.round` (round half towards `+∞`). -/
def jsRound (q : ℚ) : Int := ⌊q + 1/2⌋

/-- The `(dy, dx)` offsets of the smoothing neighbourhood loops
(`terrainGeneration.ts`, lines 368–369): the full 3×3 block, `(0, 0)`
included — the source has no `dx === 0 && dy === 0` skip here. -/
def neighborOffsets : List (Int × Int) :=
  (intRange (-1) 1).bind (fun dy => (intRange (-1) 1).map (fun dx => (dy, dx)))

/-- One step of the sum/count accumulation over the 3×3 block
(`terrainGeneration.ts`, lines 370–378): in-bounds cells whose type is
neither `water` nor `asphalt` contribute their height. -/
def smoothAccum (orig : Grid) (ms : MapSize) (y x : Int) (sc : Int × Nat)
    (d : Int × Int) : Int × Nat :=
  let ny := y + d.1
  let nx := x + d.2
  if 0 ≤ nx ∧ nx < (ms.width : Int) ∧ 0 ≤ ny ∧ ny < (ms.height : Int) then
    let nc := cellAt orig ny nx
    if nc.type ≠ "water" ∧ nc.type ≠ "asphalt" then (sc.1 + nc.height, sc.2 + 1) else sc
  else sc

/-- `(sum, count)` of the eligible heights in the 3×3 block around `(y, x)`,
the cell itself included (the source loop does not exclude `(0,0)`). -/
def smoothSumCount (orig : Grid) (ms : MapSize) (y x : Int) : Int × Nat :=
  neighborOffsets.foldl (smoothAccum orig ms y x) (0, 0)

/-- The smoothed height the source writes
(`terrainGeneration.ts`, lines 382–387):
`Math.floor((mapData[y][x].height + Math.round(sum / count)) / 2)`. -/
def smoothedHeightVal (orig : Grid) (ms : MapSize) (y x : Int) (c : Cell) : Int :=
  let sc := smoothSumCount orig ms y x
  ⌊(((c.height + jsRound ((sc.1 : ℚ) / (sc.2 : ℚ))) : Int) : ℚ) / 2⌋

/-- One iteration of the smoothing loops at interior position `p = (y, x)`
(`terrainGeneration.ts`, lines 357–389): skip `water`/`asphalt` cells,
otherwise (when any eligible cell was counted) write the smoothed height into
the output copy; all tests and sums read the original grid. -/
def smoothIter (orig : Grid) (ms : MapSize) (g : Grid) (p : Int × Int) : Grid :=
  let c := cellAt orig p.1 p.2
  if c.type = "water" ∨ c.type = "asphalt" then g
  else
    let sc := smoothSumCount orig ms p.1 p.2
    if 0 < sc.2 then
      modifyGrid g p.1.toNat p.2.toNat
        (fun cl => { cl with height := smoothedHeightVal orig ms p.1 p.2 c })
    else g

/-- The interior positions `(y, x)` visited by
`for (let y = 1; y < height-1; y++) for (let x = 1; x < width-1; x++)`. -/
def interiorIdxs (ms : MapSize) : List (Int × Int) :=
  (intRange 1 ((ms.height : Int) - 2)).bind (fun y =>
    (intRange 1 ((ms.width : Int) - 2)).map (fun x => (y, x)))

/-- The smoothing pass of `generateRandomTerrain`
(`terrainGeneration.ts`, lines 354–391), extracted as a function of the grid
it post-processes: deep copy (`smoothedHeights`, here the identity) and the
interior double loop. -/
def smoothHeights (orig : Grid) (ms : MapSize) : Grid :=
  (interiorIdxs ms).foldl (smoothIter orig ms) orig

/-- A 3×3 grid, all `field`: height 10 at the center, height 1 elsewhere
(counterexample input for the smoothing formula). -/
def g3ctr : Grid :=
  [[⟨"field", 1⟩, ⟨"field", 1⟩, ⟨"field", 1⟩],
   [⟨"field", 1⟩, ⟨"field", 10⟩, ⟨"field", 1⟩],
   [⟨"field", 1⟩, ⟨"field", 1⟩, ⟨"field", 1⟩]]

/-! ### The soft brush

Modelled from the spec: the soft-brush variant of `updateCells` is absent
from `src/` — `MapEditor.tsx` calls `updateCells` with nine arguments
(`selectedBrushType`, `softBrushSettings`) and `types.ts` declares
`SoftBrushSettings`, but the `mapUtils.ts` present in `src/` implements only
the seven-argument hard brush.  The definitions below follow §4.6 of the
spec word for word: brush radius `floor(brushSize/2)`; circular area;
distance normalised by `min(distance/radius, 1)`; strength clamped to
`[0.1, 1]`; the four falloff profiles; cells whose weight is below 0.01
skipped; for the `height` tool the blend
`round(current + (target − current)·weight)`; terrain-type painting never
blended. -/

/-- The falloff profile of a soft brush (`types.ts`):
`'linear' | 'quadratic' | 'gaussian' | 'plateau'`. -/
inductive FalloffType where
  | linear
  | quadratic
  | gaussian
  | plateau
deriving DecidableEq

/-- `SoftBrushSettings` from `types.ts`. -/
structure SoftBrushSettings where
  falloffType : FalloffType
  strength : ℚ
  preserveTerrainType : Bool
deriving DecidableEq

/-- Modelled from the spec: strength clamped to `[0.1, 1]` (§4.6). -/
def clampStrength (s : ℚ) : ℚ := max (1/10) (min s 1)

/-- Modelled from the spec: the brush-center distance of a cell at offset
`(dr, dc)`, normalised to `[0,1]` via `min(distance/radius, 1)` (§4.6). -/
noncomputable def normalizedDist (dr dc : Int) (radius : Nat) : ℝ :=
  min (Real.sqrt ((dr : ℝ) ^ 2 + (dc : ℝ) ^ 2) / (radius : ℝ)) 1

/-- Modelled from the spec: the per-falloff-type weight (§4.6):
linear `max 0 (1−d)·s`, quadratic `max 0 (1−d²)·s`, gaussian `exp(−4d²)·s`,
plateau `s` for `d<0.5` else `max 0 (1−(d−0.5)·2)·s`. -/
noncomputable def softBrushWeight (ft : FalloffType) (d : ℝ) (s : ℝ) : ℝ :=
  match ft with
  | .linear => max 0 (1 - d) * s
  | .quadratic => max 0 (1 - d ^ 2) * s
  | .gaussian => Real.exp (-(4 * d ^ 2)) * s
  | .plateau => if d < 1/2 then s else max 0 (1 - (d - 1/2) * 2) * s

/-- JavaScript `Math.round` on a real argument (round half towards `+∞`). -/
noncomputable def jsRoundR (x : ℝ) : Int := ⌊x + 1/2⌋

/-- `List.map` with the element index passed to the function (auxiliary,
with explicit start index). -/
def mapWithIdxAux (f : Nat → α → β) : Nat → List α → List β
  | _, [] => []
  | n, a :: t => f n a :: mapWithIdxAux f (n + 1) t

/-- `List.map` with the element index passed to the function. -/
def mapWithIdx (f : Nat → α → β) (l : List α) : List β := mapWithIdxAux f 0 l

/-- Modelled from the spec: the effect of one soft-brush application on the
cell at `(i, j)` (§4.6).  A cell is affected when it lies in the map and in
the circular brush area; the `height` tool blends
`round(current + (target − current)·weight)` unless the weight is below the
0.01 epsilon (then the cell is skipped); any other tool writes the terrain
type directly — soft-brush weighting never applies to terrain-type changes. -/
noncomputable def softCellUpdate (row col : Int) (ms : MapSize) (tool : String)
    (selectedHeight : Int) (brushSize : Nat) (st : SoftBrushSettings)
    (i j : Nat) (cell : Cell) : Cell :=
  let radius : Nat := brushSize / 2
  let dr := (i : Int) - row
  let dc := (j : Int) - col
  if (i : Int) < ms.height ∧ (j : Int) < ms.width ∧
      dr * dr + dc * dc ≤ (radius : Int) * (radius : Int) then
    if tool = "height" then
      let w := softBrushWeight st.falloffType (normalizedDist dr dc radius)
        ((clampStrength st.strength : ℚ) : ℝ)
      if w < 1/100 then cell
      else { cell with height := jsRoundR ((cell.height : ℝ) +
        ((selectedHeight - cell.height : Int) : ℝ) * w) }
    else { cell with type := tool }
  else cell

/-- Modelled from the spec: applying a soft brush centred at
`(row, col)` to the whole grid (§4.6) — every cell of the grid receives
`softCellUpdate`, which leaves cells outside the brush area unchanged. -/
noncomputable def updateCellsSoft (mapData : Grid) (row col : Int) (ms : MapSize)
    (tool : String) (selectedHeight : Int) (brushSize : Nat)
    (st : SoftBrushSettings) : Grid :=
  mapWithIdx (fun i rw =>
    mapWithIdx (fun j cell => softCellUpdate row col ms tool selectedHeight brushSize st i j cell) rw)
    mapData

end MapEd

namespace MapEd

/-! ### Basic lemmas about the list helpers -/

theorem length_modifyAt (f : α → α) (l : List α) (n : Nat) :
    (modifyAt f l n).length = l.length := by
  induction l generalizing n with
  | nil => rfl
  | cons a t ih =>
    cases n with
    | zero => rfl
    | succ m => simpa [modifyAt] using ih m

theorem getElem?_mem {l : List α} {n : Nat} {a : α} (h : l[n]? = some a) : a ∈ l := by
  induction l generalizing n with
  | nil => simp at h
  | cons x t ih =>
    cases n with
    | zero =>
      simp only [List.getElem?_cons_zero, Option.some.injEq] at h
      exact h ▸ List.mem_cons_self _ _
    | succ k =>
      simp only [List.getElem?_cons_succ] at h
      exact List.mem_cons_of_mem _ (ih h)

theorem getElem?_isSome_of_lt {l : List α} {n : Nat} (h : n < l.length) :
    ∃ a, l[n]? = some a := by
  induction l generalizing n with
  | nil => simp at h
  | cons x t ih =>
    cases n with
    | zero => exact ⟨x, List.getElem?_cons_zero⟩
    | succ k =>
      obtain ⟨a, ha⟩ := ih (by simpa using h)
      exact ⟨a, by simpa [List.getElem?_cons_succ] using ha⟩

theorem getElem?_modifyAt (f : α → α) (l : List α) (n m : Nat) :
    (modifyAt f l n)[m]? = if m = n then (l[n]?).map f else l[m]? := by
  induction l generalizing n m with
  | nil => simp [modifyAt]
  | cons a t ih =>
    cases n with
    | zero =>
      cases m with
      | zero => simp [modifyAt]
      | succ k => simp [modifyAt]
    | succ n' =>
      cases m with
      | zero => simp [modifyAt]
      | succ k => simpa [modifyAt, Nat.succ_eq_add_one] using ih n' k

theorem mem_modifyAt {l : List α} {f : α → α} {n : Nat} {a : α}
    (h : a ∈ modifyAt f l n) : a ∈ l ∨ ∃ b ∈ l, a = f b := by
  induction l generalizing n with
  | nil => simp [modifyAt] at h
  | cons x t ih =>
    cases n with
    | zero =>
      rcases List.mem_cons.1 h with h1 | h1
      · exact Or.inr ⟨x, List.mem_cons_self _ _, h1⟩
      · exact Or.inl (List.mem_cons_of_mem _ h1)
    | succ m =>
      rcases List.mem_cons.1 h with h1 | h1
      · exact Or.inl (h1 ▸ List.mem_cons_self _ _)
      · rcases ih h1 with h2 | ⟨b, hb, hfb⟩
        · exact Or.inl (List.mem_cons_of_mem _ h2)
        · exact Or.inr ⟨b, List.mem_cons_of_mem _ hb, hfb⟩

theorem getCell_modifyGrid (g : Grid) (i j : Nat) (f : Cell → Cell) (i' j' : Nat) :
    getCell (modifyGrid g i j f) i' j' =
      if i' = i ∧ j' = j then (getCell g i' j').map f else getCell g i' j' := by
  unfold getCell modifyGrid
  rw [getElem?_modifyAt]
  by_cases hi : i' = i
  · subst hi
    by_cases hj : j' = j
    · subst hj
      simp only [if_pos rfl, and_self, if_pos]
      cases g[i']? with
      | none => rfl
      | some r => simp [getElem?_modifyAt]
    · simp only [if_pos rfl, hj, and_false, if_false]
      cases g[i']? with
      | none => rfl
      | some r => simp [getElem?_modifyAt, hj]
  · simp [hi]

theorem mem_intRange {lo hi x : Int} : x ∈ intRange lo hi ↔ lo ≤ x ∧ x ≤ hi := by
  unfold intRange
  simp only [List.mem_map, List.mem_range]
  constructor
  · rintro ⟨n, hn, rfl⟩
    omega
  · rintro ⟨h1, h2⟩
    exact ⟨(x - lo).toNat, by omega, by omega⟩

theorem mem_brushOffsets {radius : Int} {p : Int × Int} :
    p ∈ brushOffsets radius ↔
      -radius ≤ p.1 ∧ p.1 ≤ radius ∧ -radius ≤ p.2 ∧ p.2 ≤ radius := by
  unfold brushOffsets
  cases p with
  | mk a b =>
    simp only [List.mem_bind, List.mem_map, Prod.mk.injEq]
    constructor
    · rintro ⟨r, hr, c, hc, rfl, rfl⟩
      exact ⟨(mem_intRange.1 hr).1, (mem_intRange.1 hr).2,
        (mem_intRange.1 hc).1, (mem_intRange.1 hc).2⟩
    · rintro ⟨h1, h2, h3, h4⟩
      exact ⟨a, mem_intRange.2 ⟨h1, h2⟩, b, mem_intRange.2 ⟨h3, h4⟩, rfl, rfl⟩

/-! ### The hard brush: frame and totality lemmas -/

theorem foldl_bind_none (f : Grid → Int × Int → Option Grid) (l : List (Int × Int)) :
    l.foldl (fun og p => og.bind (fun g => f g p)) none = none := by
  induction l with
  | nil => rfl
  | cons p t ih => simpa using ih

theorem brushStep_preserves_far {row col : Int} {ms : MapSize} {tool : String} {h : Int}
    {b : Nat} {g g'' : Grid} {p : Int × Int} {i j : Nat}
    (hp : p ∈ brushOffsets ((b / 2 : Nat) : Int))
    (hfar : ((b / 2 : Nat) : Int) * ((b / 2 : Nat) : Int) <
      ((i : Int) - row) * ((i : Int) - row) + ((j : Int) - col) * ((j : Int) - col))
    (hstep : brushStep row col ms tool h b g p = some g'') :
    getCell g'' i j = getCell g i j := by
  unfold brushStep at hstep
  by_cases hob : outOfBounds (row + p.1) (col + p.2) ms
  · simp only [hob, if_pos] at hstep
    cases hstep; rfl
  · simp only [hob, if_neg, not_false_iff] at hstep
    by_cases hcirc : 1 < b ∧ ((b / 2 : Nat) : Int) * ((b / 2 : Nat) : Int) <
        p.1 * p.1 + p.2 * p.2
    · simp only [hcirc, if_pos] at hstep
      cases hstep; rfl
    · simp only [hcirc, if_neg, not_false_iff] at hstep
      unfold checkedWrite at hstep
      cases hget : getCell g (row + p.1).toNat (col + p.2).toNat with
      | none => rw [hget] at hstep; cases hstep
      | some c =>
        rw [hget] at hstep
        cases hstep
        rw [getCell_modifyGrid]
        have hne : ¬(i = (row + p.1).toNat ∧ j = (col + p.2).toNat) := by
          rintro ⟨rfl, rfl⟩
          unfold outOfBounds at hob
          push_neg at hob
          obtain ⟨h1, h2, h3, h4⟩ := hob
          have hi' : ((row + p.1).toNat : Int) = row + p.1 := by omega
          have hj' : ((col + p.2).toNat : Int) = col + p.2 := by omega
          rw [hi', hj'] at hfar
          have hsq : p.1 * p.1 + p.2 * p.2 ≤ ((b / 2 : Nat) : Int) * ((b / 2 : Nat) : Int) := by
            by_cases hb1 : 1 < b
            · by_contra hlt
              exact hcirc ⟨hb1, by omega⟩
            · have hb0 : b / 2 = 0 := by omega
              obtain ⟨hp1, hp2, hp3, hp4⟩ := mem_brushOffsets.1 hp
              rw [hb0] at hp1 hp2 hp3 hp4
              simp only [Nat.cast_zero, neg_zero] at hp1 hp2 hp3 hp4
              have : p.1 = 0 := le_antisymm hp2 hp1
              have : p.2 = 0 := le_antisymm hp4 hp3
              simp_all
          have harith : (row + p.1 - row) * (row + p.1 - row) +
              (col + p.2 - col) * (col + p.2 - col) = p.1 * p.1 + p.2 * p.2 := by ring_nf
          rw [harith] at hfar
          omega
        rw [if_neg hne]

theorem foldl_brush_preserves_far {row col : Int} {ms : MapSize} {tool : String}
    {h : Int} {b : Nat} {i j : Nat}
    (hfar : ((b / 2 : Nat) : Int) * ((b / 2 : Nat) : Int) <
      ((i : Int) - row) * ((i : Int) - row) + ((j : Int) - col) * ((j : Int) - col)) :
    ∀ (l : List (Int × Int)), (∀ p ∈ l, p ∈ brushOffsets ((b / 2 : Nat) : Int)) →
      ∀ (g g' : Grid),
        l.foldl (fun og p => og.bind (fun g0 => brushStep row col ms tool h b g0 p)) (some g) =
          some g' →
        getCell g' i j = getCell g i j := by
  intro l
  induction l with
  | nil =>
    intro _ g g' hrun
    cases hrun; rfl
  | cons p t ih =>
    intro hl g g' hrun
    simp only [List.foldl_cons, Option.some_bind] at hrun
    cases hb : brushStep row col ms tool h b g p with
    | none =>
      rw [hb] at hrun
      rw [foldl_bind_none] at hrun
      cases hrun
    | some g1 =>
      rw [hb] at hrun
      have e1 := ih (fun q hq => hl q (List.mem_cons_of_mem _ hq)) g1 g' hrun
      rw [e1]
      exact brushStep_preserves_far (hl p (List.mem_cons_self _ _)) hfar hb

/-- C7: with the hard (normal) brush, `updateCells` never modifies a cell whose
Euclidean distance from the brush center exceeds `floor(brushSize/2)`: every
such cell of the returned grid equals its pre-apply value.  For the integer
offsets involved, `dist > radius` is stated exactly as
`radius² < (i−row)² + (j−col)²`. -/
theorem brush_containment (mapData : Grid) (row col : Int) (ms : MapSize)
    (tool : String) (h : Int) (b : Nat) (g' : Grid) (i j : Nat)
    (hrun : updateCells mapData row col ms tool h b = some g')
    (hfar : ((b / 2 : Nat) : Int) * ((b / 2 : Nat) : Int) <
      ((i : Int) - row) * ((i : Int) - row) + ((j : Int) - col) * ((j : Int) - col)) :
    getCell g' i j = getCell mapData i j := by
  exact foldl_brush_preserves_far hfar _ (fun p hp => hp) mapData g' hrun

/-- Witness for C7 at a concrete input: a size-3 `water` brush at the center
of a 3×3 field grid leaves the corner cell (0,0), at squared distance 2 > 1,
unchanged. -/
theorem brush_containment_witness :
    updateCells grid3 1 1 ⟨3, 3⟩ "water" 0 3 = some plus3 ∧
    ((3 / 2 : Nat) : Int) * ((3 / 2 : Nat) : Int) <
      (((0 : Nat) : Int) - 1) * (((0 : Nat) : Int) - 1) +
        (((0 : Nat) : Int) - 1) * (((0 : Nat) : Int) - 1) ∧
    getCell plus3 0 0 = getCell grid3 0 0 := by
  refine ⟨by decide, by decide, ?_⟩
  exact brush_containment grid3 1 1 ⟨3, 3⟩ "water" 0 3 plus3 0 0 (by decide) (by decide)

theorem dimsEq_modifyGrid {g : Grid} {ms : MapSize} (hd : dimsEq g ms)
    (i j : Nat) (f : Cell → Cell) : dimsEq (modifyGrid g i j f) ms := by
  obtain ⟨hlen, hrows⟩ := hd
  constructor
  · rw [modifyGrid, length_modifyAt]; exact hlen
  · intro r hr
    rcases mem_modifyAt hr with hr' | ⟨r0, hr0, rfl⟩
    · exact hrows r hr'
    · rw [length_modifyAt]; exact hrows r0 hr0

theorem brushStep_dims (row col : Int) (ms : MapSize) (tool : String) (h : Int)
    (b : Nat) {g : Grid} (hd : dimsEq g ms) (p : Int × Int) :
    ∃ g'', brushStep row col ms tool h b g p = some g'' ∧ dimsEq g'' ms := by
  by_cases hob : outOfBounds (row + p.1) (col + p.2) ms
  · refine ⟨g, ?_, hd⟩
    simp only [brushStep]
    rw [if_pos hob]
  · by_cases hcirc : 1 < b ∧ ((b / 2 : Nat) : Int) * ((b / 2 : Nat) : Int) <
        p.1 * p.1 + p.2 * p.2
    · refine ⟨g, ?_, hd⟩
      simp only [brushStep]
      rw [if_neg hob, if_pos hcirc]
    · refine ⟨modifyGrid g (row + p.1).toNat (col + p.2).toNat (paintCell tool h),
        ?_, dimsEq_modifyGrid hd _ _ _⟩
      simp only [brushStep]
      rw [if_neg hob, if_neg hcirc]
      unfold outOfBounds at hob
      push_neg at hob
      obtain ⟨h1, h2, h3, h4⟩ := hob
      obtain ⟨hlen, hrows⟩ := hd
      have hi : (row + p.1).toNat < g.length := by omega
      obtain ⟨r, hrow⟩ := getElem?_isSome_of_lt hi
      have hmem : r ∈ g := getElem?_mem hrow
      have hj : (col + p.2).toNat < r.length := by
        rw [hrows _ hmem]; omega
      obtain ⟨c, hcol⟩ := getElem?_isSome_of_lt hj
      unfold checkedWrite getCell
      rw [hrow]
      simp only [Option.some_bind]
      rw [hcol]

theorem foldl_brush_dims (row col : Int) (ms : MapSize) (tool : String) (h : Int)
    (b : Nat) :
    ∀ (l : List (Int × Int)) (g : Grid), dimsEq g ms →
      ∃ g', l.foldl (fun og p => og.bind (fun g0 => brushStep row col ms tool h b g0 p))
          (some g) = some g' ∧ dimsEq g' ms := by
  intro l
  induction l with
  | nil => exact fun g hd => ⟨g, rfl, hd⟩
  | cons p t ih =>
    intro g hd
    obtain ⟨g1, hg1, hd1⟩ := brushStep_dims row col ms tool h b hd p
    obtain ⟨g', hg', hd'⟩ := ih g1 hd1
    refine ⟨g', ?_, hd'⟩
    simp only [List.foldl_cons, Option.some_bind]
    rw [hg1]
    exact hg'

theorem foldl_brush_outside {row col : Int} {ms : MapSize} {tool : String} {h : Int}
    {b : Nat} :
    ∀ (l : List (Int × Int)) (g : Grid),
      (∀ p ∈ l, outOfBounds (row + p.1) (col + p.2) ms) →
      l.foldl (fun og p => og.bind (fun g0 => brushStep row col ms tool h b g0 p))
        (some g) = some g := by
  intro l
  induction l with
  | nil => exact fun g _ => rfl
  | cons p t ih =>
    intro g hl
    have hstep : brushStep row col ms tool h b g p = some g := by
      unfold brushStep
      rw [if_pos (hl p (List.mem_cons_self _ _))]
    simp only [List.foldl_cons, Option.some_bind]
    rw [hstep]
    exact ih g (fun q hq => hl q (List.mem_cons_of_mem _ hq))

/-- C10: on a grid whose dimensions match `mapSize`, the brush update is
total for every center coordinate, in-bounds or not: it never throws (always
returns a grid), brush-area cells outside the map are silently skipped, and
when the whole brush area lies outside the map the returned grid is the
input grid. -/
theorem updateCells_total (mapData : Grid) (row col : Int) (ms : MapSize)
    (tool : String) (h : Int) (b : Nat) (hd : dimsEq mapData ms) :
    (∃ g', updateCells mapData row col ms tool h b = some g') ∧
    ((∀ p ∈ brushOffsets ((b / 2 : Nat) : Int),
        outOfBounds (row + p.1) (col + p.2) ms) →
      updateCells mapData row col ms tool h b = some mapData) := by
  constructor
  · obtain ⟨g', hg', _⟩ := foldl_brush_dims row col ms tool h b
      (brushOffsets ((b / 2 : Nat) : Int)) mapData hd
    exact ⟨g', hg'⟩
  · intro hout
    exact foldl_brush_outside _ mapData hout

/-- Witness for C10 at a concrete input: a size-3 brush centered at (10,10),
entirely outside a 2×2 map, returns the input grid unchanged. -/
theorem updateCells_total_witness :
    dimsEq grid2 ⟨2, 2⟩ ∧
    ((∃ g', updateCells grid2 10 10 ⟨2, 2⟩ "water" 0 3 = some g') ∧
      ((∀ p ∈ brushOffsets ((3 / 2 : Nat) : Int),
          outOfBounds (10 + p.1) (10 + p.2) ⟨2, 2⟩) →
        updateCells grid2 10 10 ⟨2, 2⟩ "water" 0 3 = some grid2)) := by
  exact ⟨by decide, updateCells_total grid2 10 10 ⟨2, 2⟩ "water" 0 3 (by decide)⟩

/-- C2 counterexample: on the 5×5 all-`field`/height-1 grid, the hard size-3
`water` brush at (2,2) does not produce the claimed 3×3 block of
`water`/height-0 cells: the diagonal neighbour (1,1) (Euclidean distance
√2 > 1) is left as `field`, and even painted cells keep height 1 because
terrain painting never writes `height`. -/
theorem hard_brush_scenario_cex :
    updateCells grid5 2 2 ⟨5, 5⟩ "water" 0 3 = some cross5 ∧
    getCell cross5 1 1 ≠ some ⟨"water", 0⟩ ∧
    getCell cross5 2 2 ≠ some ⟨"water", 0⟩ := by
  decide

/-- C2 (amended): on the 5×5 all-`field`/height-1 grid, the hard size-3
`water` brush at (2,2) turns exactly the 5 cells at Euclidean distance ≤ 1
— the center and its 4 orthogonal neighbours — into `water`, leaves every
height at 1, and leaves the other 20 cells (including the 4 diagonal
neighbours, at distance √2 > 1) unchanged. -/
theorem hard_brush_scenario :
    updateCells grid5 2 2 ⟨5, 5⟩ "water" 0 3 = some cross5 := by
  decide

/-! ### Hex resize lemmas -/

theorem map_congr_mem {l : List α} {f g : α → β} (h : ∀ a ∈ l, f a = g a) :
    l.map f = l.map g := by
  induction l with
  | nil => rfl
  | cons a t ih =>
    simp only [List.map_cons]
    rw [h a (List.mem_cons_self _ _), ih (fun x hx => h x (List.mem_cons_of_mem _ hx))]

theorem foldl_lastWithKey (k : Int × Int × Int) (t : List HexData) (acc : Option HexData) :
    t.foldl (fun acc h => if hexKey h = k then some h else acc) acc =
      match lastWithKey t k with
      | some x => some x
      | none => acc := by
  induction t generalizing acc with
  | nil => simp [lastWithKey]
  | cons a t ih =>
    show t.foldl _ (if hexKey a = k then some a else acc) = _
    rw [ih]
    have hcons : lastWithKey (a :: t) k =
        t.foldl (fun acc h => if hexKey h = k then some h else acc)
          (if hexKey a = k then some a else none) := rfl
    rw [hcons, ih]
    cases lastWithKey t k with
    | some x => rfl
    | none =>
      by_cases ha : hexKey a = k
      · rw [if_pos ha, if_pos ha]
      · rw [if_neg ha, if_neg ha]

theorem lastWithKey_cons (a : HexData) (t : List HexData) (k : Int × Int × Int) :
    lastWithKey (a :: t) k =
      match lastWithKey t k with
      | some x => some x
      | none => if hexKey a = k then some a else none := by
  show t.foldl _ (if hexKey a = k then some a else none) = _
  rw [foldl_lastWithKey]

theorem lastWithKey_eq_none {l : List HexData} {k : Int × Int × Int}
    (h : k ∉ l.map hexKey) : lastWithKey l k = none := by
  induction l with
  | nil => rfl
  | cons a t ih =>
    rw [lastWithKey_cons]
    have ha : hexKey a ≠ k := fun hk => h (by simp [hk])
    have ht : k ∉ t.map hexKey := fun hk => h (by simp [hk])
    rw [ih ht, if_neg ha]

theorem lastWithKey_isSome {l : List HexData} {k : Int × Int × Int}
    (h : k ∈ l.map hexKey) : ∃ x, lastWithKey l k = some x := by
  induction l with
  | nil => simp at h
  | cons a t ih =>
    rw [lastWithKey_cons]
    cases hlk : lastWithKey t k with
    | some x => exact ⟨x, rfl⟩
    | none =>
      have ht : k ∉ t.map hexKey := fun hmem => by
        obtain ⟨x, hx⟩ := ih hmem
        rw [hlk] at hx
        cases hx
      have ha : hexKey a = k := by
        simp only [List.map_cons, List.mem_cons] at h
        rcases h with h1 | h1
        · exact h1.symm
        · exact absurd h1 ht
      exact ⟨a, by rw [if_pos ha]⟩

theorem hexAtKey_reconstruct (l : List HexData) (hnd : (l.map hexKey).Nodup) :
    (l.map hexKey).map (hexAtKey l) = l := by
  induction l with
  | nil => rfl
  | cons a t ih =>
    simp only [List.map_cons]
    have hna : hexKey a ∉ t.map hexKey := (List.nodup_cons.1 (by simpa using hnd)).1
    have hnt : (t.map hexKey).Nodup := (List.nodup_cons.1 (by simpa using hnd)).2
    have hhead : hexAtKey (a :: t) (hexKey a) = a := by
      unfold hexAtKey
      rw [lastWithKey_cons, lastWithKey_eq_none hna, if_pos rfl]
    have htail : (t.map hexKey).map (hexAtKey (a :: t)) = (t.map hexKey).map (hexAtKey t) := by
      apply map_congr_mem
      intro k hk
      obtain ⟨x, hx⟩ := lastWithKey_isSome hk
      unfold hexAtKey
      rw [lastWithKey_cons, hx]
    rw [hhead, htail, ih hnt]

theorem intRange_nodup (lo hi : Int) : (intRange lo hi).Nodup := by
  apply List.Nodup.map
  · intro a b hab
    have hab' : lo + (a : Int) = lo + (b : Int) := hab
    omega
  · exact List.nodup_range _

theorem canonicalHexCoords_nodup (R : Int) : (canonicalHexCoords R).Nodup := by
  unfold canonicalHexCoords
  rw [List.nodup_bind]
  constructor
  · intro q _
    apply List.Nodup.map
    · intro r1 r2 h
      have h' : (q, r1, -q - r1) = (q, r2, -q - r2) := h
      simp only [Prod.mk.injEq] at h'
      exact h'.2.1
    · exact intRange_nodup _ _
  · apply List.Pairwise.imp ?_ (intRange_nodup (-R) R)
    intro q q' hne x hx hx'
    obtain ⟨r1, _, rfl⟩ := List.mem_map.1 hx
    obtain ⟨r2, _, h2⟩ := List.mem_map.1 hx'
    exact hne (congrArg Prod.fst h2).symm

/-- C9: resizing a well-formed radius-`R` hexagonal map (its coordinate list
is exactly the canonical radius-`R` coordinate set, `R ≤ 15`) to its own
radius returns the map itself: the same coordinate set, every coordinate
mapped to an equal cell. -/
theorem resize_same_radius (hexMap : List HexData) (R : Int)
    (hcap : R ≤ 15) (hwf : hexMap.map hexKey = canonicalHexCoords R) :
    resizeHexMap hexMap R = hexMap := by
  simp only [resizeHexMap]
  rw [min_eq_left hcap, ← hwf]
  exact hexAtKey_reconstruct hexMap (hwf ▸ canonicalHexCoords_nodup R)

/-- Witness for C9 at a concrete input: the radius-1 (7-cell) hexagonal map
resized to radius 1 is returned unchanged. -/
theorem resize_same_radius_witness :
    (1 : Int) ≤ 15 ∧ hex7.map hexKey = canonicalHexCoords 1 ∧
    resizeHexMap hex7 1 = hex7 := by
  exact ⟨by decide, by decide, resize_same_radius hex7 1 (by decide) (by decide)⟩

/-- C8: recording a new edit with `saveState` after an `undo` (indeed after
any history) empties the redo stack, so a subsequent `redo` is a no-op: the
state — current grid and both stacks — is returned unchanged. -/
theorem redo_noop_after_record (st : EditorState) (m : Grid) :
    (saveState (undo st) m).redoStack = [] ∧
    redo (saveState (undo st) m) = saveState (undo st) m := by
  constructor
  · rfl
  · unfold redo
    rfl

/-- C6: the noise generator is deterministic — two calls with identical
parameters (and the same, itself deterministic, corner hash) return an
identical field.  The embedding makes this visible: `generateNoise` depends
on nothing but its arguments (the source uses no `Math.random` and no
external state; its corner hash is a fixed function of `(x, y, seed+octave)`,
here the parameter `rand`). -/
theorem generateNoise_deterministic (rand : Int → Int → ℚ → ℚ)
    (p q : NoiseParams) (h : p = q) :
    generateNoise rand p = generateNoise rand q := by
  rw [h]

/-- Witness for C6 at a concrete input. -/
theorem generateNoise_deterministic_witness :
    (⟨2, 2, 1, 2, 1/2, 2, 7⟩ : NoiseParams) = (⟨2, 2, 1, 2, 1/2, 2, 7⟩ : NoiseParams) ∧
    generateNoise (fun x y s => ((x + y : Int) : ℚ) + s) ⟨2, 2, 1, 2, 1/2, 2, 7⟩ =
      generateNoise (fun x y s => ((x + y : Int) : ℚ) + s) ⟨2, 2, 1, 2, 1/2, 2, 7⟩ := by
  exact ⟨rfl, generateNoise_deterministic _ _ _ rfl⟩

/-- C4 (code-bug evaluation): when all raw accumulated noise values are equal
(`max == min`) — here a 1×1 field, whose single raw value is trivially both
min and max — the normalisation `(v - min)/(max - min)` of `generateNoise`
divides zero by zero and yields `NaN` (`none`) in every cell, not the
constant `0.5` required by the spec. -/
theorem generateNoise_degenerate_nan :
    generateNoise (fun _ _ _ => 37/100) ⟨1, 1, 1, 1, 1/2, 2, 0⟩ = [[none]] ∧
    ([[none]] : List (List (Option ℚ))) ≠ [[some (1/2)]] := by
  constructor
  · norm_num [generateNoise, rawNoiseMap, noiseValueAt, lerp, smoothstep, jsDiv,
      List.range_succ, List.range_zero]
  · simp

/-- C3 (code-bug evaluation): on the 2×2 elevation map `[[0,1],[1,1]]` the
cell `(x,y) = (0,0)` is a strict local minimum — every in-bounds neighbour
has strictly greater elevation — yet the river walk does not terminate
there: `riverStep` moves to `(1,0)` (the walk only breaks when the cell has
no in-bounds neighbour at all, because `minElevation` starts at `Infinity`
and is never compared with the current cell's elevation). -/
theorem river_walk_ignores_local_min :
    (∀ d ∈ directionsList,
      (0 ≤ 0 + d.1 ∧ 0 + d.1 < (2 : Int) ∧ 0 ≤ 0 + d.2 ∧ 0 + d.2 < (2 : Int)) →
        elevAt [[0, 1], [1, 1]] (0 + d.2).toNat (0 + d.1).toNat >
          elevAt [[0, 1], [1, 1]] 0 0) ∧
    riverStep [[0, 1], [1, 1]] ⟨2, 2⟩ 0 0 = some (1, 0) := by
  constructor
  · intro d hd
    fin_cases hd <;> norm_num [elevAt]
  · norm_num [riverStep, riverNext, directionsList, elevAt]

/-! ### Smoothing-pass lemmas -/

theorem cellAt_coe (g : Grid) (i j : Nat) :
    cellAt g (i : Int) (j : Int) = (getCell g i j).getD ⟨"field", 1⟩ := by
  simp [cellAt]

theorem neighborOffsets_eq :
    neighborOffsets =
      [(-1, -1), (-1, 0), (-1, 1), (0, -1), (0, 0), (0, 1), (1, -1), (1, 0), (1, 1)] := by
  simp [neighborOffsets, intRange, List.range_succ]

theorem mem_interiorIdxs {ms : MapSize} {p : Int × Int} :
    p ∈ interiorIdxs ms ↔
      1 ≤ p.1 ∧ p.1 ≤ (ms.height : Int) - 2 ∧ 1 ≤ p.2 ∧ p.2 ≤ (ms.width : Int) - 2 := by
  unfold interiorIdxs
  cases p with
  | mk a b =>
    simp only [List.mem_bind, List.mem_map, Prod.mk.injEq]
    constructor
    · rintro ⟨y, hy, x, hx, rfl, rfl⟩
      exact ⟨(mem_intRange.1 hy).1, (mem_intRange.1 hy).2,
        (mem_intRange.1 hx).1, (mem_intRange.1 hx).2⟩
    · rintro ⟨h1, h2, h3, h4⟩
      exact ⟨a, mem_intRange.2 ⟨h1, h2⟩, b, mem_intRange.2 ⟨h3, h4⟩, rfl, rfl⟩

theorem interiorIdxs_nodup (ms : MapSize) : (interiorIdxs ms).Nodup := by
  unfold interiorIdxs
  rw [List.nodup_bind]
  constructor
  · intro y _
    apply List.Nodup.map
    · intro x1 x2 h
      have h' : (y, x1) = (y, x2) := h
      simp only [Prod.mk.injEq] at h'
      exact h'.2
    · exact intRange_nodup _ _
  · apply List.Pairwise.imp ?_ (intRange_nodup 1 ((ms.height : Int) - 2))
    intro y y' hne z hz hz'
    obtain ⟨x1, _, rfl⟩ := List.mem_map.1 hz
    obtain ⟨x2, _, h2⟩ := List.mem_map.1 hz'
    exact hne (congrArg Prod.fst h2).symm

theorem smoothAccum_count_le (orig : Grid) (ms : MapSize) (y x : Int)
    (sc : Int × Nat) (d : Int × Int) : sc.2 ≤ (smoothAccum orig ms y x sc d).2 := by
  simp only [smoothAccum]
  split_ifs <;> simp

theorem foldl_smoothAccum_count_le (orig : Grid) (ms : MapSize) (y x : Int) :
    ∀ (l : List (Int × Int)) (sc : Int × Nat),
      sc.2 ≤ (l.foldl (smoothAccum orig ms y x) sc).2 := by
  intro l
  induction l with
  | nil => exact fun sc => le_refl _
  | cons d t ih =>
    intro sc
    exact le_trans (smoothAccum_count_le orig ms y x sc d) (ih _)

theorem smoothSumCount_pos (orig : Grid) (ms : MapSize) (i j : Nat) (cell : Cell)
    (hget : getCell orig i j = some cell)
    (hi : (i : Int) < ms.height) (hj : (j : Int) < ms.width)
    (ht : cell.type ≠ "water" ∧ cell.type ≠ "asphalt") :
    0 < (smoothSumCount orig ms (i : Int) (j : Int)).2 := by
  have hsplit : neighborOffsets =
      [(-1, -1), (-1, 0), (-1, 1), (0, -1)] ++
        (0, 0) :: [(0, 1), (1, -1), (1, 0), (1, 1)] := by
    rw [neighborOffsets_eq]; rfl
  rw [smoothSumCount, hsplit, List.foldl_append, List.foldl_cons]
  have hmid : ∀ sc : Int × Nat,
      0 < (smoothAccum orig ms (i : Int) (j : Int) sc (0, 0)).2 := by
    intro sc
    simp only [smoothAccum, add_zero]
    rw [if_pos (by constructor <;> omega)]
    rw [cellAt_coe, hget]
    rw [if_pos (by exact ht)]
    simp
  exact lt_of_lt_of_le (hmid _) (foldl_smoothAccum_count_le orig ms _ _ _ _)

theorem smoothIter_preserves_ne (orig : Grid) (ms : MapSize) {g : Grid}
    {p : Int × Int} {i j : Nat} (hp0 : 0 ≤ p.1 ∧ 0 ≤ p.2)
    (hne : p ≠ ((i : Int), (j : Int))) :
    getCell (smoothIter orig ms g p) i j = getCell g i j := by
  simp only [smoothIter]
  split_ifs with h1 h2
  · rfl
  · rw [getCell_modifyGrid, if_neg]
    rintro ⟨rfl, rfl⟩
    apply hne
    cases p with
    | mk a b =>
      obtain ⟨ha, hb⟩ := hp0
      simp only [Prod.mk.injEq]
      constructor <;> omega
  · rfl

theorem foldl_smoothIter_not_mem (orig : Grid) (ms : MapSize) {i j : Nat} :
    ∀ (l : List (Int × Int)) (g : Grid), (∀ p ∈ l, 0 ≤ p.1 ∧ 0 ≤ p.2) →
      ((i : Int), (j : Int)) ∉ l →
      getCell (l.foldl (smoothIter orig ms) g) i j = getCell g i j := by
  intro l
  induction l with
  | nil => exact fun g _ _ => rfl
  | cons p t ih =>
    intro g hpos hmem
    rw [List.foldl_cons]
    rw [ih _ (fun q hq => hpos q (List.mem_cons_of_mem _ hq))
      (fun hq => hmem (List.mem_cons_of_mem _ hq))]
    exact smoothIter_preserves_ne orig ms (hpos p (List.mem_cons_self _ _))
      (fun he => hmem (he ▸ List.mem_cons_self _ _))

theorem foldl_smoothIter_mem (orig : Grid) (ms : MapSize) {i j : Nat} {cell : Cell}
    (hoc : getCell orig i j = some cell)
    (hcnt : cell.type ≠ "water" ∧ cell.type ≠ "asphalt" →
      0 < (smoothSumCount orig ms (i : Int) (j : Int)).2) :
    ∀ (l : List (Int × Int)) (g : Grid), (∀ p ∈ l, 0 ≤ p.1 ∧ 0 ≤ p.2) →
      l.Nodup → ((i : Int), (j : Int)) ∈ l → getCell g i j = some cell →
      getCell (l.foldl (smoothIter orig ms) g) i j =
        some (if cell.type = "water" ∨ cell.type = "asphalt" then cell
              else { cell with height := smoothedHeightVal orig ms (i : Int) (j : Int) cell }) := by
  intro l
  induction l with
  | nil =>
    intro g _ _ hmem
    simp at hmem
  | cons p t ih =>
    intro g hpos hnd hmem hg
    rw [List.foldl_cons]
    by_cases hp : p = ((i : Int), (j : Int))
    · subst hp
      have hnott : ((i : Int), (j : Int)) ∉ t := (List.nodup_cons.1 hnd).1
      rw [foldl_smoothIter_not_mem orig ms t _
        (fun q hq => hpos q (List.mem_cons_of_mem _ hq)) hnott]
      simp only [smoothIter]
      have hc : cellAt orig (i : Int) (j : Int) = cell := by
        rw [cellAt_coe, hoc]; rfl
      rw [hc]
      by_cases hw : cell.type = "water" ∨ cell.type = "asphalt"
      · rw [if_pos hw, hg, if_pos hw]
      · rw [if_neg hw, if_neg hw]
        push_neg at hw
        rw [if_pos (hcnt hw)]
        rw [getCell_modifyGrid, if_pos (by constructor <;> omega), hg]
        rfl
    · have hmem' : ((i : Int), (j : Int)) ∈ t := by
        rcases List.mem_cons.1 hmem with he | ht'
        · exact absurd he.symm hp
        · exact ht'
      have hg' : getCell (smoothIter orig ms g p) i j = some cell := by
        rw [smoothIter_preserves_ne orig ms (hpos p (List.mem_cons_self _ _)) hp]
        exact hg
      exact ih _ (fun q hq => hpos q (List.mem_cons_of_mem _ hq))
        (List.nodup_cons.1 hnd).2 hmem' hg'

/-- C5 (amended): on a grid matching its `mapSize`, the smoothing pass maps
each interior cell to: itself when its type is `water` or `asphalt`, and
otherwise a cell of the same type whose height is
`floor((originalHeight + round(sum/count)) / 2)`, where `(sum, count)` range
over the eligible (non-`water`/non-`asphalt`, in-bounds) cells of the full
3×3 neighbourhood *including the cell itself*; the eligible count is always
positive for a smoothed cell because the cell itself is counted. -/
theorem smoothing_characterization (orig : Grid) (ms : MapSize) (i j : Nat)
    (cell : Cell) (_hd : dimsEq orig ms)
    (hget : getCell orig i j = some cell)
    (hi : 1 ≤ (i : Int) ∧ (i : Int) ≤ (ms.height : Int) - 2)
    (hj : 1 ≤ (j : Int) ∧ (j : Int) ≤ (ms.width : Int) - 2) :
    getCell (smoothHeights orig ms) i j =
      some (if cell.type = "water" ∨ cell.type = "asphalt" then cell
            else { cell with height := smoothedHeightVal orig ms (i : Int) (j : Int) cell }) ∧
    (cell.type ≠ "water" ∧ cell.type ≠ "asphalt" →
      0 < (smoothSumCount orig ms (i : Int) (j : Int)).2) := by
  have hcnt : cell.type ≠ "water" ∧ cell.type ≠ "asphalt" →
      0 < (smoothSumCount orig ms (i : Int) (j : Int)).2 :=
    fun ht => smoothSumCount_pos orig ms i j cell hget (by omega) (by omega) ht
  refine ⟨?_, hcnt⟩
  apply foldl_smoothIter_mem orig ms hget hcnt (interiorIdxs ms) orig ?_
    (interiorIdxs_nodup ms) ?_ hget
  · intro p hp
    have h := mem_interiorIdxs.1 hp
    exact ⟨by omega, by omega⟩
  · exact mem_interiorIdxs.2 (by constructor <;> [omega; constructor <;>
      [omega; constructor <;> omega]])

/-- Witness for C5 at a concrete input: the center of the 3×3 grid `g3ctr`. -/
theorem smoothing_characterization_witness :
    dimsEq g3ctr ⟨3, 3⟩ ∧ getCell g3ctr 1 1 = some ⟨"field", 10⟩ ∧
    (1 ≤ ((1 : Nat) : Int) ∧ ((1 : Nat) : Int) ≤ ((3 : Nat) : Int) - 2) ∧
    (getCell (smoothHeights g3ctr ⟨3, 3⟩) 1 1 =
      some (if ("field" = "water" ∨ "field" = "asphalt") then (⟨"field", 10⟩ : Cell)
            else { (⟨"field", 10⟩ : Cell) with
                    height := smoothedHeightVal g3ctr ⟨3, 3⟩ 1 1 ⟨"field", 10⟩ }) ∧
      (("field" ≠ "water" ∧ "field" ≠ "asphalt") →
        0 < (smoothSumCount g3ctr ⟨3, 3⟩ 1 1).2)) := by
  refine ⟨by decide, by decide, by decide, ?_⟩
  exact smoothing_characterization g3ctr ⟨3, 3⟩ 1 1 ⟨"field", 10⟩ (by decide) (by decide)
    (by constructor <;> decide) (by constructor <;> decide)

theorem interiorIdxs_3x3 : interiorIdxs ⟨3, 3⟩ = [(1, 1)] := by
  simp [interiorIdxs, intRange, List.range_succ]

theorem smoothSumCount_g3ctr : smoothSumCount g3ctr ⟨3, 3⟩ 1 1 = (18, 9) := by
  rw [smoothSumCount, neighborOffsets_eq]
  simp [smoothAccum, cellAt, getCell, g3ctr]

theorem smoothedHeightVal_g3ctr :
    smoothedHeightVal g3ctr ⟨3, 3⟩ 1 1 ⟨"field", 10⟩ = 6 := by
  simp only [smoothedHeightVal, smoothSumCount_g3ctr, jsRound]
  norm_num

/-- C5 counterexample: in the 3×3 grid with height 10 at the center and
height 1 around it, the smoothing writes height 6 at the center — the source
averages over the 3×3 block *including* the center (`sum = 18`, `count = 9`,
`round(18/9) = 2`, `floor((10+2)/2) = 6`) and rounds the average before the
final floor — whereas the claim's formula
`floor((originalHeight + averageNeighborHeight)/2)` over the 8 neighbours
only (average 1) gives `floor(11/2) = 5 ≠ 6`. -/
theorem smoothing_neighbors_only_cex :
    getCell (smoothHeights g3ctr ⟨3, 3⟩) 1 1 = some ⟨"field", 6⟩ ∧
    (6 : Int) ≠ ⌊(((10 : Int) + 1 : Int) : ℚ) / 2⌋ := by
  constructor
  · rw [smoothHeights, interiorIdxs_3x3]
    simp only [List.foldl_cons, List.foldl_nil, smoothIter, smoothSumCount_g3ctr]
    simp [cellAt, getCell, g3ctr, modifyGrid, modifyAt]
    exact smoothedHeightVal_g3ctr
  · have h5 : ⌊(((10 : Int) + 1 : Int) : ℚ) / 2⌋ = (5 : Int) := by
      rw [Int.floor_eq_iff]
      norm_num
    rw [h5]
    decide

/-! ### Soft-brush lemmas -/

theorem getElem?_mapWithIdxAux (f : Nat → α → β) (n : Nat) (l : List α) (m : Nat) :
    (mapWithIdxAux f n l)[m]? = (l[m]?).map (f (n + m)) := by
  induction l generalizing n m with
  | nil => simp [mapWithIdxAux]
  | cons a t ih =>
    cases m with
    | zero => simp [mapWithIdxAux]
    | succ k =>
      simp only [mapWithIdxAux, List.getElem?_cons_succ]
      rw [ih (n + 1) k]
      have harith : n + 1 + k = n + (k + 1) := by omega
      rw [harith]

theorem getElem?_mapWithIdx (f : Nat → α → β) (l : List α) (m : Nat) :
    (mapWithIdx f l)[m]? = (l[m]?).map (f m) := by
  have := getElem?_mapWithIdxAux f 0 l m
  simpa [mapWithIdx] using this

theorem getCell_updateCellsSoft (mapData : Grid) (row col : Int) (ms : MapSize)
    (tool : String) (selectedHeight : Int) (brushSize : Nat) (st : SoftBrushSettings)
    (i j : Nat) :
    getCell (updateCellsSoft mapData row col ms tool selectedHeight brushSize st) i j =
      (getCell mapData i j).map
        (softCellUpdate row col ms tool selectedHeight brushSize st i j) := by
  unfold getCell updateCellsSoft
  rw [getElem?_mapWithIdx]
  cases mapData[i]? with
  | none => rfl
  | some r =>
    show (mapWithIdx
      (fun j cell => softCellUpdate row col ms tool selectedHeight brushSize st i j cell) r)[j]? = _
    rw [getElem?_mapWithIdx]
    rfl

theorem softBrushWeight_nonneg (ft : FalloffType) (d s : ℝ) (hs : 0 ≤ s) :
    0 ≤ softBrushWeight ft d s := by
  cases ft with
  | linear => exact mul_nonneg (le_max_left _ _) hs
  | quadratic => exact mul_nonneg (le_max_left _ _) hs
  | gaussian => exact mul_nonneg (Real.exp_pos _).le hs
  | plateau =>
    simp only [softBrushWeight]
    split_ifs
    · exact hs
    · exact mul_nonneg (le_max_left _ _) hs

theorem jsRoundR_eq_self (h : Int) (x : ℝ) (h₁ : -(1/2) ≤ x) (h₂ : x < 1/2) :
    jsRoundR ((h : ℝ) + x) = h := by
  unfold jsRoundR
  rw [Int.floor_eq_iff]
  constructor
  · linarith
  · linarith

/-- C1: for every rectangular grid, every in-bounds cell of the circular
brush area, and every soft-brush configuration (one of the four falloff
types; strength clamped to `[0.1, 1]`), applying the soft brush with the
`height` tool sets the cell's new height to
`round(current + (target − current) · weight)` — a blend, not an overwrite —
while any terrain tool overwrites the terrain type with no blending.
Heights are assumed in the editor's documented range `[0, 10]`, which makes
the below-epsilon skip (`weight < 0.01`) coincide with the blend formula:
there `|target − current| · weight < 1/2`, so the blend rounds back to the
current height. -/
theorem soft_brush_blend (mapData : Grid) (row col : Int) (ms : MapSize)
    (tool : String) (selectedHeight : Int) (brushSize : Nat) (st : SoftBrushSettings)
    (i j : Nat) (cell : Cell)
    (hget : getCell mapData i j = some cell)
    (hib : (i : Int) < ms.height) (hjb : (j : Int) < ms.width)
    (hdisc : ((i : Int) - row) * ((i : Int) - row) +
        ((j : Int) - col) * ((j : Int) - col) ≤
      ((brushSize / 2 : Nat) : Int) * ((brushSize / 2 : Nat) : Int))
    (hcur : 0 ≤ cell.height ∧ cell.height ≤ 10)
    (hsel : 0 ≤ selectedHeight ∧ selectedHeight ≤ 10) :
    (tool = "height" →
      getCell (updateCellsSoft mapData row col ms tool selectedHeight brushSize st) i j =
        some { cell with height := jsRoundR ((cell.height : ℝ) +
          ((selectedHeight - cell.height : Int) : ℝ) *
            softBrushWeight st.falloffType
              (normalizedDist ((i : Int) - row) ((j : Int) - col) (brushSize / 2))
              ((clampStrength st.strength : ℚ) : ℝ)) }) ∧
    (tool ≠ "height" →
      getCell (updateCellsSoft mapData row col ms tool selectedHeight brushSize st) i j =
        some { cell with type := tool }) := by
  have hmap : getCell (updateCellsSoft mapData row col ms tool selectedHeight brushSize st) i j =
      some (softCellUpdate row col ms tool selectedHeight brushSize st i j cell) := by
    rw [getCell_updateCellsSoft, hget]
    rfl
  constructor
  · intro htool
    rw [hmap]
    simp only [softCellUpdate]
    rw [if_pos ⟨hib, hjb, hdisc⟩, if_pos htool]
    by_cases hw : softBrushWeight st.falloffType
        (normalizedDist ((i : Int) - row) ((j : Int) - col) (brushSize / 2))
        ((clampStrength st.strength : ℚ) : ℝ) < 1/100
    · rw [if_pos hw]
      have hs0 : (0 : ℝ) ≤ ((clampStrength st.strength : ℚ) : ℝ) := by
        have h10 : (1/10 : ℚ) ≤ clampStrength st.strength := le_max_left _ _
        have : (0 : ℚ) ≤ clampStrength st.strength := by linarith
        exact_mod_cast this
      have hwnn : 0 ≤ softBrushWeight st.falloffType
          (normalizedDist ((i : Int) - row) ((j : Int) - col) (brushSize / 2))
          ((clampStrength st.strength : ℚ) : ℝ) :=
        softBrushWeight_nonneg _ _ _ hs0
      have hd10 : ((selectedHeight - cell.height : Int) : ℝ) ≤ 10 := by
        have : (selectedHeight - cell.height : Int) ≤ 10 := by omega
        exact_mod_cast this
      have hdm10 : (-10 : ℝ) ≤ ((selectedHeight - cell.height : Int) : ℝ) := by
        have : (-10 : Int) ≤ selectedHeight - cell.height := by omega
        exact_mod_cast this
      have hr : jsRoundR ((cell.height : ℝ) +
          ((selectedHeight - cell.height : Int) : ℝ) *
            softBrushWeight st.falloffType
              (normalizedDist ((i : Int) - row) ((j : Int) - col) (brushSize / 2))
              ((clampStrength st.strength : ℚ) : ℝ)) = cell.height := by
        apply jsRoundR_eq_self
        · nlinarith
        · nlinarith
      rw [hr]
    · rw [if_neg hw]
  · intro htool
    rw [hmap]
    simp only [softCellUpdate]
    rw [if_pos ⟨hib, hjb, hdisc⟩, if_neg htool]

/-- Witness for C1 at a concrete input: a size-3 linear soft brush of
strength 1/2 at the center of a 1×1 field grid, height tool targeting 5. -/
theorem soft_brush_blend_witness :
    getCell [[(⟨"field", 1⟩ : Cell)]] 0 0 = some ⟨"field", 1⟩ ∧
    (((0 : Nat) : Int) < (1 : Nat) ∧
      (((0 : Nat) : Int) - 0) * (((0 : Nat) : Int) - 0) +
          (((0 : Nat) : Int) - 0) * (((0 : Nat) : Int) - 0) ≤
        ((3 / 2 : Nat) : Int) * ((3 / 2 : Nat) : Int)) ∧
    (("height" = "height" →
      getCell (updateCellsSoft [[⟨"field", 1⟩]] 0 0 ⟨1, 1⟩ "height" 5 3
        ⟨FalloffType.linear, 1/2, false⟩) 0 0 =
        some { (⟨"field", 1⟩ : Cell) with height := jsRoundR (((1 : Int) : ℝ) +
          (((5 : Int) - (1 : Int) : Int) : ℝ) *
            softBrushWeight FalloffType.linear
              (normalizedDist (((0 : Nat) : Int) - 0) (((0 : Nat) : Int) - 0) (3 / 2))
              ((clampStrength (1/2) : ℚ) : ℝ)) }) ∧
    ("height" ≠ "height" →
      getCell (updateCellsSoft [[⟨"field", 1⟩]] 0 0 ⟨1, 1⟩ "height" 5 3
        ⟨FalloffType.linear, 1/2, false⟩) 0 0 = some { (⟨"field", 1⟩ : Cell) with type := "height" })) := by
  refine ⟨by decide, ⟨by decide, by decide⟩, ?_⟩
  exact soft_brush_blend [[⟨"field", 1⟩]] 0 0 ⟨1, 1⟩ "height" 5 3
    ⟨FalloffType.linear, 1/2, false⟩ 0 0 ⟨"field", 1⟩ (by decide) (by decide) (by decide)
    (by decide) (by decide) (by decide)

end MapEd
